import Mathlib

/-!
# Verification of the scilight task-execution library

Shallow embedding of `src/scilight/__init__.py`: an insertion-ordered
association list models Python dicts, a record of path-keyed files and
directories models the filesystem, and the placeholder-resolution regex
scans are modelled as deterministic matchers (the three regexes used by
the source are simple enough that their Python backtracking behaviour is
exactly the greedy take-while behaviour implemented here).

Real time (the audit timestamps) and the textual JSON rendering of audit
records are not modelled; an audit record is modelled as a file written
at `<output>.au.json` whose content is derived from the command and the
input/output path lists.  The `merge_audit_files` branch of
`_write_audit_files` is dead code (its only caller always passes
`False`) and is not modelled.
-/

/-- Insertion-ordered association list standing for a Python `dict`. -/
abbrev Dict := List (String × String)

/-- Python `d[k]` lookup: first binding wins. -/
def lookupD : Dict → String → Option String
  | [], _ => none
  | (k, v) :: rest, key => if k = key then some v else lookupD rest key

/-- Python `d[k] = v`: update in place, or append preserving insertion order. -/
def setD : Dict → String → String → Dict
  | [], key, v => [(key, v)]
  | (k, w) :: rest, key, v =>
    if k = key then (key, v) :: rest else (k, w) :: setD rest key v

/-- Filesystem model: files (path to content) and directories. -/
structure FS where
  files : List (String × String)
  dirs : List String
deriving DecidableEq

/-- A regular file exists at `p`. -/
def FS.hasFile (fs : FS) (p : String) : Bool :=
  (lookupD fs.files p).isSome

/-- `os.path.exists`: true for files and directories; the working
directory `"."` always exists. -/
def FS.existsPath (fs : FS) (p : String) : Bool :=
  p = "." || fs.hasFile p || fs.dirs.contains p

/-- `open(p, "w")` followed by a write: create or overwrite the file. -/
def FS.write (fs : FS) (p c : String) : FS :=
  { fs with files := setD fs.files p c }

/-- Delete a file (all bindings for the path). -/
def FS.removeFile (fs : FS) (p : String) : FS :=
  { fs with files := fs.files.filter (fun e => !(e.1 = p)) }

/-- `shutil.move src dst` for regular files: fails when `src` is missing,
otherwise renames (overwriting `dst`). -/
def FS.move (fs : FS) (src dst : String) : Option FS :=
  match lookupD fs.files src with
  | none => none
  | some c => some ((fs.removeFile src).write dst c)

/-! ## Python string helpers -/

/-- `str.replace(pat, repl)`: replace all non-overlapping occurrences,
left to right.  Fuel-driven so that it reduces by `rfl`. -/
def pyReplaceAux (pat repl : List Char) : Nat → List Char → List Char
  | 0, s => s
  | _ + 1, [] => []
  | fuel + 1, c :: rest =>
    if pat ≠ [] ∧ pat.isPrefixOf (c :: rest) then
      repl ++ pyReplaceAux pat repl fuel ((c :: rest).drop pat.length)
    else
      c :: pyReplaceAux pat repl fuel rest

/-- `s.replace(pat, repl)` on strings (the source never calls it with an
empty pattern). -/
def pyReplace (s pat repl : String) : String :=
  String.mk (pyReplaceAux pat.data repl.data s.data.length s.data)

/-- `s.split(sep)` for a one-character separator: keeps empty fields. -/
def splitOnCharAux (sep : Char) : List Char → List Char → List (List Char)
  | [], acc => [acc.reverse]
  | c :: rest, acc =>
    if c = sep then acc.reverse :: splitOnCharAux sep rest []
    else splitOnCharAux sep rest (c :: acc)

/-- `s.split(sep)` for a one-character separator. -/
def splitOnChar (sep : Char) (l : List Char) : List (List Char) :=
  splitOnCharAux sep l []

/-- `s.strip("|")`: drop leading and trailing `'|'` characters. -/
def stripPipes (l : List Char) : List Char :=
  ((l.dropWhile (fun c => c = '|')).reverse.dropWhile (fun c => c = '|')).reverse

/-- `modifiers.strip("|").split("|")` from the modifier-handling code. -/
def pySplitMods (mods : String) : List String :=
  (splitOnChar '|' (stripPipes mods.data)).map String.mk

/-- `os.path.basename`: the part after the last `'/'`. -/
def osBasename (p : String) : String :=
  String.mk ((p.data.reverse.takeWhile (fun c => c ≠ '/')).reverse)

/-- Python slice `v[0:-n]`: for `n = 0` this is `v[0:0] = ""`, otherwise
the string with its last `n` characters removed (clamped at empty). -/
def pySliceToNeg (v : String) (n : Nat) : String :=
  if n = 0 then "" else String.mk (v.data.take (v.data.length - n))

/-- Python slice `v[:-4]` used to restore `.tmp`-suffixed output paths. -/
def pyDropLast4 (v : String) : String :=
  String.mk (v.data.take (v.data.length - 4))

/-- Concatenate with a separator (used only to render audit content). -/
def joinWith (sep : String) : List String → String
  | [] => ""
  | [x] => x
  | x :: rest => x ++ sep ++ joinWith sep rest

/-! ## Modifier application (`Task._replace_placeholders`, lines 71-87) -/

/-- `re.match(r"s\/([^/]+)\/([^/]+)\/", mod)`: a prefix of the form
`s/SEARCH/REPLACE/` with nonempty slash-free SEARCH and REPLACE. -/
def parseSubstMod (mod : String) : Option (String × String) :=
  match mod.data with
  | 's' :: '/' :: rest =>
    let search := rest.takeWhile (fun c => c ≠ '/')
    match search, rest.dropWhile (fun c => c ≠ '/') with
    | [], _ => none
    | _ :: _, '/' :: rest2 =>
      let repl := rest2.takeWhile (fun c => c ≠ '/')
      match repl, rest2.dropWhile (fun c => c ≠ '/') with
      | [], _ => none
      | _ :: _, '/' :: _ => some (String.mk search, String.mk repl)
      | _, _ => none
    | _, _ => none
  | _ => none

/-- One modifier applied to an in-port path (the loop body at lines
74-86): `%SUFF` strips `len(SUFF)` trailing characters via `path[0:-n]`,
`s/…/…/` is a literal replace-all (malformed: `mod_parts[1]` on `None`, a
`TypeError`), `basename` keeps the last path component, an empty modifier
is `mod[0]` on an empty string (an `IndexError`), and any other modifier
falls through every branch unchanged. -/
def applyInputMod (path : String) (mod : String) : Except String String :=
  match mod.data with
  | [] => Except.error "IndexError: string index out of range"
  | c :: restChars =>
    if c = '%' then Except.ok (pySliceToNeg path restChars.length)
    else if c = 's' then
      match parseSubstMod mod with
      | none => Except.error "TypeError: NoneType object is not subscriptable"
      | some (search, repl) => Except.ok (pyReplace path search repl)
    else if mod = "basename" then Except.ok (osBasename path)
    else Except.ok path

/-- Chain of modifiers applied left to right to an in-port path. -/
def applyInputMods (path : String) : List String → Except String String
  | [] => Except.ok path
  | mod :: rest =>
    match applyInputMod path mod with
    | Except.error e => Except.error e
    | Except.ok p2 => applyInputMods p2 rest

/-- One modifier applied to a parameter value (lines 100-106): only the
`s/…/…/` branch exists; other nonempty modifiers are silently ignored. -/
def applyParamMod (value : String) (mod : String) : Except String String :=
  match mod.data with
  | [] => Except.error "IndexError: string index out of range"
  | c :: _ =>
    if c = 's' then
      match parseSubstMod mod with
      | none => Except.error "TypeError: NoneType object is not subscriptable"
      | some (search, repl) => Except.ok (pyReplace value search repl)
    else Except.ok value

/-- Chain of modifiers applied left to right to a parameter value. -/
def applyParamMods (value : String) : List String → Except String String
  | [] => Except.ok value
  | mod :: rest =>
    match applyParamMod value mod with
    | Except.error e => Except.error e
    | Except.ok v2 => applyParamMods v2 rest

/-! ## Placeholder matching

The source finds placeholders with three `re.findall` calls:

* in-ports / parameters: `(\[i\:([^:\]\|]*)(\|([^\]]+))?\])` (resp. `p`),
* out-ports: `(\[o\:([^:\]]*)(:([^:\]]+))?\])`.

Each is deterministic: after the literal `[i:` prefix, the name is the
maximal run of characters outside the excluded class, and the optional
modifier / path group either matches greedily up to the closing `]` or
the whole candidate fails (backtracking cannot rescue a failed candidate
because the character classes are disjoint from the delimiters). -/

/-- Character allowed in an out-port name or path: `[^:\]]`. -/
def nameCharO (c : Char) : Bool := !(c = ':' || c = ']')

/-- Character allowed in an in-port / parameter name: `[^:\]\|]`. -/
def nameCharI (c : Char) : Bool := !(c = ':' || c = ']' || c = '|')

/-- Character allowed in a modifier chain: `[^\]]`. -/
def modChar (c : Char) : Bool := !(c = ']')

/-- An in-port or parameter placeholder match: the matched text, the port
name, and the modifier chain (`""` when absent, mirroring `m[3]`). -/
structure IPMatch where
  full : String
  name : String
  mods : String
deriving DecidableEq

/-- An out-port placeholder match: the matched text, the port name, and
the inline path (`""` when the two-part form was used, mirroring `m[3]`). -/
structure OMatch where
  full : String
  name : String
  path : String
deriving DecidableEq

/-- Try the in-port/parameter regex at the head of `l`; on success return
the match and the remaining characters. -/
def matchIP (tag : Char) (l : List Char) : Option (IPMatch × List Char) :=
  if l.take 3 = ['[', tag, ':'] then
    let r0 := l.drop 3
    let name := r0.takeWhile nameCharI
    match r0.dropWhile nameCharI with
    | [] => none
    | c :: r2 =>
      if c = ']' then
        some ({ full := String.mk ('[' :: tag :: ':' :: (name ++ [']'])),
                name := String.mk name, mods := "" }, r2)
      else if c = '|' then
        let mods := r2.takeWhile modChar
        if mods.isEmpty then none
        else
          match r2.dropWhile modChar with
          | [] => none
          | d :: r4 =>
            if d = ']' then
              some ({ full := String.mk ('[' :: tag :: ':' :: (name ++ '|' :: (mods ++ [']']))),
                      name := String.mk name, mods := String.mk mods }, r4)
            else none
      else none
  else none

/-- Try the out-port regex at the head of `l`. -/
def matchO (l : List Char) : Option (OMatch × List Char) :=
  if l.take 3 = ['[', 'o', ':'] then
    let r0 := l.drop 3
    let name := r0.takeWhile nameCharO
    match r0.dropWhile nameCharO with
    | [] => none
    | c :: r2 =>
      if c = ']' then
        some ({ full := String.mk ('[' :: 'o' :: ':' :: (name ++ [']'])),
                name := String.mk name, path := "" }, r2)
      else if c = ':' then
        let path := r2.takeWhile nameCharO
        if path.isEmpty then none
        else
          match r2.dropWhile nameCharO with
          | [] => none
          | d :: r4 =>
            if d = ']' then
              some ({ full := String.mk ('[' :: 'o' :: ':' :: (name ++ ':' :: (path ++ [']']))),
                      name := String.mk name, path := String.mk path }, r4)
            else none
      else none
  else none

/-- `re.findall` scan for in-port/parameter placeholders: at each
position try a match; on success continue after it, else advance one
character.  Every step shortens the text, so `fuel := length` suffices. -/
def findIPAux (tag : Char) : Nat → List Char → List IPMatch
  | 0, _ => []
  | _ + 1, [] => []
  | fuel + 1, c :: rest =>
    match matchIP tag (c :: rest) with
    | some (m, rest2) => m :: findIPAux tag fuel rest2
    | none => findIPAux tag fuel rest

/-- `re.findall` scan for out-port placeholders. -/
def findOAux : Nat → List Char → List OMatch
  | 0, _ => []
  | _ + 1, [] => []
  | fuel + 1, c :: rest =>
    match matchO (c :: rest) with
    | some (m, rest2) => m :: findOAux fuel rest2
    | none => findOAux fuel rest

/-! ## The three resolution passes (`Task._replace_placeholders`) -/

/-- In-port pass loop (lines 66-88): look the port up in `inputs`
(`KeyError` when absent), apply the modifier chain when present, then
replace every occurrence of the matched placeholder text. -/
def inputPassGo (inputs : Dict) : List IPMatch → String → Except String String
  | [], sh => Except.ok sh
  | m :: rest, sh =>
    match lookupD inputs m.name with
    | none => Except.error ("KeyError: " ++ m.name)
    | some path0 =>
      match (if m.mods = "" then Except.ok path0
             else applyInputMods path0 (pySplitMods m.mods)) with
      | Except.error e => Except.error e
      | Except.ok path => inputPassGo inputs rest (pyReplace sh m.full path)

/-- In-port pass (lines 64-88). -/
def inputPass (inputs : Dict) (sh : String) : Except String String :=
  inputPassGo inputs (findIPAux 'i' sh.data.length sh.data) sh

/-- Parameter pass loop (lines 92-108). -/
def paramPassGo (params : Dict) : List IPMatch → String → Except String String
  | [], sh => Except.ok sh
  | m :: rest, sh =>
    match lookupD params m.name with
    | none => Except.error ("KeyError: " ++ m.name)
    | some value0 =>
      match (if m.mods = "" then Except.ok value0
             else applyParamMods value0 (pySplitMods m.mods)) with
      | Except.error e => Except.error e
      | Except.ok value => paramPassGo params rest (pyReplace sh m.full value)

/-- Parameter pass (lines 90-108). -/
def paramPass (params : Dict) (sh : String) : Except String String :=
  paramPassGo params (findIPAux 'p' sh.data.length sh.data) sh

/-- Out-port pass loop (lines 114-126): the three-part form binds
`outputs[port] = path`, the two-part form reads the bound path
(`KeyError` when absent); the placeholder is replaced by the path in the
final string and by `path + ".tmp"` in the staged string. -/
def outputPassGo : List OMatch → String → String → Dict →
    Except String (String × String × Dict)
  | [], sh, tmp, outs => Except.ok (sh, tmp, outs)
  | m :: rest, sh, tmp, outs =>
    if m.path ≠ "" then
      outputPassGo rest (pyReplace sh m.full m.path)
        (pyReplace tmp m.full (m.path ++ ".tmp")) (setD outs m.name m.path)
    else
      match lookupD outs m.name with
      | none => Except.error ("KeyError: " ++ m.name)
      | some path =>
        outputPassGo rest (pyReplace sh m.full path)
          (pyReplace tmp m.full (path ++ ".tmp")) outs

/-- Out-port pass (lines 110-128): `temp_shell` starts as a copy of the
working string, and the match list is computed before any replacement. -/
def outputPass (outs : Dict) (sh : String) : Except String (String × String × Dict) :=
  outputPassGo (findOAux sh.data.length sh.data) sh sh outs

/-- `Task._replace_placeholders` (lines 63-128): the in-port pass, then
the parameter pass, then the out-port pass, in that fixed order; returns
the final string, the staged string, and the (possibly grown) output
map. -/
def resolvePlaceholders (inputs outs params : Dict) (sh : String) :
    Except String (String × String × Dict) :=
  match inputPass inputs sh with
  | Except.error e => Except.error e
  | Except.ok sh1 =>
    match paramPass params sh1 with
    | Except.error e => Except.error e
    | Except.ok sh2 => outputPass outs sh2


/-! ## Task construction (`Task.__init__`, lines 19-40)

Construction resolves each input path, then each output path, against
the partially built maps; the options dict is modelled by its only
recognized key, `tempfiles` (absent means the default `True`). -/

/-- The input-resolution loop (lines 28-31).  The `outputs` attribute
does not exist yet at this point in the source, so the out-port pass
runs against an empty map. -/
def initInputsGo (params : Dict) : List (String × String) → Dict → Except String Dict
  | [], acc => Except.ok acc
  | (name, p) :: rest, acc =>
    match resolvePlaceholders acc [] params p with
    | Except.error e => Except.error e
    | Except.ok (final, _, _) => initInputsGo params rest (setD acc name final)

/-- The output-resolution loop (lines 33-36): resolution may itself bind
out-ports inline, and the resolved value is then bound to the declared
name. -/
def initOutputsGo (inputs params : Dict) : List (String × String) → Dict → Except String Dict
  | [], acc => Except.ok acc
  | (name, p) :: rest, acc =>
    match resolvePlaceholders inputs acc params p with
    | Except.error e => Except.error e
    | Except.ok (final, _, acc2) => initOutputsGo inputs params rest (setD acc2 name final)

/-! ## The task lifecycle -/

/-- Result of `execute`: Python objects survive a raised exception, so a
failure carries the (possibly mutated) task and filesystem alongside the
message. -/
inductive ExecResult (τ : Type) where
  | ok (task : τ) (fs : FS)
  | err (task : τ) (fs : FS) (msg : String)

/-- `Task._outputs_exist` (lines 45-55): walk the outputs in insertion
order; a staged `.tmp` path raises, an existing final path returns
`True` (skip), otherwise continue; `False` when nothing exists. -/
def outputsExist (outs : Dict) (fs : FS) : Except String Bool :=
  match outs with
  | [] => Except.ok false
  | (_, path) :: rest =>
    if fs.existsPath (path ++ ".tmp") then
      Except.error ("Existing temp files found: " ++ path ++ ".tmp")
    else if fs.existsPath path then Except.ok true
    else outputsExist rest fs

/-- `pathlib.Path(p).parent` for the plain relative/absolute paths the
claims exercise. -/
def parentDir (p : String) : String :=
  let parts := splitOnChar '/' p.data
  if parts.length ≤ 1 then "." else joinWith "/" (parts.dropLast.map String.mk)

/-- `Task._ensure_output_folders_exist` (lines 57-61): create each
missing parent directory (only the `dirs` component changes). -/
def ensureOutputFoldersExist : Dict → FS → FS
  | [], fs => fs
  | nv :: rest, fs =>
    let parent := parentDir nv.2
    ensureOutputFoldersExist rest
      (if fs.existsPath parent then fs else { fs with dirs := fs.dirs ++ [parent] })

/-- `Task._move_tempfiles_to_final_path` (lines 130-132): rename each
staged output in insertion order; a missing staged file raises, leaving
the moves already made in place. -/
def moveTempfilesToFinalPath : Dict → FS → FS × Option String
  | [], fs => (fs, none)
  | (_, p) :: rest, fs =>
    match fs.move (p ++ ".tmp") p with
    | none => (fs, some ("FileNotFoundError: " ++ p ++ ".tmp"))
    | some fs1 => moveTempfilesToFinalPath rest fs1

/-- Audit-record content (`_write_audit_files`, lines 277-292): the
timestamps and JSON formatting are not modelled, only that the record is
derived from the command token list and the input/output url lists. -/
def auditContent (command : String) (inputPaths outputPaths : List String) : String :=
  "audit inputs=" ++ joinWith "," inputPaths ++ " outputs=" ++ joinWith "," outputPaths
    ++ " command=" ++ joinWith " " ((splitOnChar ' ' command.data).map String.mk)

/-- The write loop of `_write_audit_files` (lines 303-306): the record
content is built once, before the loop. -/
def writeAuditFilesGo (content : String) : List String → FS → FS
  | [], fs => fs
  | p :: rest, fs => writeAuditFilesGo content rest (fs.write (p ++ ".au.json") content)

/-- `ShellTask._write_audit_files` (lines 252-306) as called by
`execute` (`merge_audit_files = False`): write one record per output
path at `<path>.au.json`. -/
def writeAuditFiles (command : String) (inputPaths outputPaths : List String) (fs : FS) : FS :=
  writeAuditFilesGo (auditContent command inputPaths outputPaths) outputPaths fs

/-- The observable behaviour of `subprocess.run` for one command:
a filesystem effect plus captured stdout/stderr and the exit code. -/
structure RunResult where
  stdout : String
  stderr : String
  returncode : Int

/-- The process boundary: how the operating system runs one command. -/
abbrev Runner := String → FS → FS × RunResult

/-- `ShellTask` after `__init__`: resolved maps, the `tempfiles` flag,
and the resolved final and staged command strings. -/
structure ShellTask where
  inputs : Dict
  outputs : Dict
  params : Dict
  tempfiles : Bool
  command : String
  temp_command : String
deriving DecidableEq

/-- `ShellTask.__init__` (lines 173-182 with `Task.__init__`). -/
def mkShellTask (command : String) (inputs outputs params : Dict)
    (tempfilesOpt : Option Bool) : Except String ShellTask :=
  match initInputsGo params inputs [] with
  | Except.error e => Except.error e
  | Except.ok ins =>
    match initOutputsGo ins params outputs [] with
    | Except.error e => Except.error e
    | Except.ok outs =>
      match resolvePlaceholders ins outs params command with
      | Except.error e => Except.error e
      | Except.ok (cmd, tmpcmd, outs2) =>
        Except.ok { inputs := ins, outputs := outs2, params := params,
                    tempfiles := tempfilesOpt.getD true,
                    command := cmd, temp_command := tmpcmd }

/-- `ShellTask._execute_shell_command` (lines 214-250): run the staged
command when staging is enabled; a non-zero exit code raises internally
but the exception is caught by the surrounding `except`, printed, and
turned into the failure tuple `("", "", 1)` — it never propagates. -/
def execShellCommand (tempfiles : Bool) (command temp_command : String)
    (runner : Runner) (fs : FS) : FS × String × String × Int :=
  let cmd := if tempfiles then temp_command else command
  let (fs2, out) := runner cmd fs
  if out.returncode ≠ 0 then (fs2, "", "", 1)
  else (fs2, out.stdout.trim, out.stderr.trim, out.returncode)

/-- `ShellTask.execute` (lines 187-209): existence check, directory
creation, the command, then — with the returned exit code ignored —
promotion (when staging is enabled) and audit writing. -/
def ShellTask.execute (t : ShellTask) (runner : Runner) (fs : FS) : ExecResult ShellTask :=
  match outputsExist t.outputs fs with
  | Except.error e => ExecResult.err t fs e
  | Except.ok true => ExecResult.ok t fs
  | Except.ok false =>
    let fs1 := ensureOutputFoldersExist t.outputs fs
    let run := execShellCommand t.tempfiles t.command t.temp_command runner fs1
    match (if t.tempfiles then moveTempfilesToFinalPath t.outputs run.1 else (run.1, none)) with
    | (fs3, some e) => ExecResult.err t fs3 e
    | (fs3, none) =>
      ExecResult.ok t
        (writeAuditFiles t.command (t.inputs.map Prod.snd) (t.outputs.map Prod.snd) fs3)

/-- The view of a task that a `FuncTask` callback receives. -/
structure TaskData where
  inputs : Dict
  outputs : Dict
  params : Dict
deriving DecidableEq

/-- A caller-supplied task function: reads the task's maps and
transforms the filesystem, optionally raising (the `Option String`). -/
abbrev TaskFunc := TaskData → FS → FS × Option String

/-- `FuncTask` after `__init__` (lines 135-145). -/
structure FuncTask where
  inputs : Dict
  outputs : Dict
  params : Dict
  tempfiles : Bool
  func : TaskFunc

/-- `FuncTask.__init__` (lines 136-145 with `Task.__init__`). -/
def mkFuncTask (f : TaskFunc) (inputs outputs params : Dict)
    (tempfilesOpt : Option Bool) : Except String FuncTask :=
  match initInputsGo params inputs [] with
  | Except.error e => Except.error e
  | Except.ok ins =>
    match initOutputsGo ins params outputs [] with
    | Except.error e => Except.error e
    | Except.ok outs =>
      Except.ok { inputs := ins, outputs := outs, params := params,
                  tempfiles := tempfilesOpt.getD true, func := f }

/-- `FuncTask.execute` (lines 147-169): existence check, directory
creation; with staging on, rewrite every output path to `path + ".tmp"`,
call the function, then strip the suffix back off (`path[:-4]`) and
promote.  An exception from the function propagates while the task still
holds the staged output paths. -/
def FuncTask.execute (t : FuncTask) (fs : FS) : ExecResult FuncTask :=
  match outputsExist t.outputs fs with
  | Except.error e => ExecResult.err t fs e
  | Except.ok true => ExecResult.ok t fs
  | Except.ok false =>
    let fs1 := ensureOutputFoldersExist t.outputs fs
    let outs1 := if t.tempfiles then t.outputs.map (fun nv => (nv.1, nv.2 ++ ".tmp"))
      else t.outputs
    let run := t.func { inputs := t.inputs, outputs := outs1, params := t.params } fs1
    match run.2 with
    | some e => ExecResult.err { t with outputs := outs1 } run.1 e
    | none =>
      if t.tempfiles then
        let outs2 := outs1.map (fun nv => (nv.1, pyDropLast4 nv.2))
        match moveTempfilesToFinalPath outs2 run.1 with
        | (fs3, some e) => ExecResult.err { t with outputs := outs2 } fs3 e
        | (fs3, none) => ExecResult.ok { t with outputs := outs2 } fs3
      else ExecResult.ok { t with outputs := outs1 } run.1

/-- Module-level `shell` helper (lines 309-323): construct the task and
run `execute` on it once, returning the task. -/
def shell (command : String) (inputs outputs params : Dict) (tempfilesOpt : Option Bool)
    (runner : Runner) (fs : FS) : Except String (ExecResult ShellTask) :=
  match mkShellTask command inputs outputs params tempfilesOpt with
  | Except.error e => Except.error e
  | Except.ok t => Except.ok (t.execute runner fs)

/-- Module-level `func` helper (lines 326-335): construct the task and
run `execute` on it once, returning the task. -/
def func (f : TaskFunc) (inputs outputs params : Dict) (tempfilesOpt : Option Bool)
    (fs : FS) : Except String (ExecResult FuncTask) :=
  match mkFuncTask f inputs outputs params tempfilesOpt with
  | Except.error e => Except.error e
  | Except.ok t => Except.ok (t.execute fs)


/-! ## Concrete fixtures used by the verification theorems -/

/-- A runner whose command has no filesystem effect and exits 0. -/
def runnerNoop : Runner := fun _ fs => (fs, { stdout := "", stderr := "", returncode := 0 })

/-- A task function with no filesystem effect that returns normally. -/
def funcNoop : TaskFunc := fun _ fs => (fs, none)

/-- The empty filesystem. -/
def fs0 : FS := { files := [], dirs := [] }

/-- A command that writes a partial staged output and exits non-zero. -/
def runnerCx1 : Runner := fun _ fs =>
  (fs.write "out.tmp" "partial line", { stdout := "", stderr := "simulated failure", returncode := 1 })

/-- ShellTask with one declared output `out`, staging enabled. -/
def tCx1 : ShellTask :=
  { inputs := [], outputs := [("o", "out")], params := [], tempfiles := true,
    command := "cmd --flag", temp_command := "cmd --flag" }

/-- The filesystem left by a failed `tCx1` run: the partial file was
promoted and an audit record written. -/
def fsCx1end : FS :=
  { files := [("out", "partial line"), ("out.au.json", auditContent "cmd --flag" [] ["out"])],
    dirs := [] }

/-- ShellTask with two declared outputs, staging enabled. -/
def tCx2 : ShellTask :=
  { inputs := [], outputs := [("o1", "a"), ("o2", "b")], params := [], tempfiles := true,
    command := "c", temp_command := "ctmp" }

/-- A filesystem where only the first declared output of `tCx2` exists. -/
def fsCx2 : FS := { files := [("a", "x")], dirs := [] }

/-- FuncTask with two declared outputs. -/
def tCx3 : FuncTask :=
  { inputs := [], outputs := [("a", "fa"), ("b", "fb")], params := [], tempfiles := true,
    func := funcNoop }

/-- First declared output's final path exists; the second declared
output has a stale staged path. -/
def fsCx3 : FS := { files := [("fa", "x"), ("fb.tmp", "y")], dirs := [] }

/-- A task function that writes the staged output `o.tmp`. -/
def fCx7 : TaskFunc := fun _ fs => (fs.write "o.tmp" "x", none)

/-- FuncTask with one declared output `o` whose function stages it. -/
def tCx7 : FuncTask :=
  { inputs := [], outputs := [("out", "o")], params := [], tempfiles := true, func := fCx7 }

/-- ShellTask used by the skip-path witness. -/
def tW4 : ShellTask :=
  { inputs := [], outputs := [("o", "w4out")], params := [], tempfiles := true,
    command := "c", temp_command := "ct" }

/-- FuncTask used by the skip-path witness. -/
def uW4 : FuncTask :=
  { inputs := [], outputs := [("o", "w4out")], params := [], tempfiles := true,
    func := funcNoop }

/-- A filesystem where the declared output of `tW4` already exists. -/
def fsW4 : FS := { files := [("w4out", "data")], dirs := [] }

/-- A runner that writes the staged output of `tW2` and exits 0. -/
def runnerW2 : Runner := fun _ fs =>
  (fs.write "w2o.tmp" "data", { stdout := "", stderr := "", returncode := 0 })

/-- ShellTask used by the staged-success witness. -/
def tW2 : ShellTask :=
  { inputs := [], outputs := [("o", "w2o")], params := [], tempfiles := true,
    command := "c", temp_command := "ct" }

/-- Result filesystem of a successful `tW2` run. -/
def fsW2end : FS :=
  { files := [("w2o", "data"), ("w2o.au.json", auditContent "c" [] ["w2o"])], dirs := [] }

/-- A runner that writes the staged output of `tW7` and exits 0. -/
def runnerW7 : Runner := fun _ fs =>
  (fs.write "w7o.tmp" "data", { stdout := "", stderr := "", returncode := 0 })

/-- ShellTask used by the audit witness. -/
def tW7 : ShellTask :=
  { inputs := [], outputs := [("o", "w7o")], params := [], tempfiles := true,
    command := "c", temp_command := "ct" }

/-- Result filesystem of a successful `tW7` run. -/
def fsW7end : FS :=
  { files := [("w7o", "data"), ("w7o.au.json", auditContent "c" [] ["w7o"])], dirs := [] }

/-- ShellTask produced by `mkShellTask "echo hej" [] [] [] none`. -/
def tW8 : ShellTask :=
  { inputs := [], outputs := [], params := [], tempfiles := true,
    command := "echo hej", temp_command := "echo hej" }

/-- FuncTask produced by `mkFuncTask funcNoop [] [] [] none`. -/
def uW8 : FuncTask :=
  { inputs := [], outputs := [], params := [], tempfiles := true, func := funcNoop }

/-- A task function that raises. -/
def fW9 : TaskFunc := fun _ fs => (fs, some "RuntimeError: boom")

/-- FuncTask whose function raises, staging enabled. -/
def tW9 : FuncTask :=
  { inputs := [], outputs := [("out", "w9o")], params := [], tempfiles := true, func := fW9 }

/-- Separation of a task's declared output paths: pairwise distinct, and
no output path is another output path's staged name.  (Without this a
later promotion can rename an earlier output away; the source assumes
ordinary distinct output paths.) -/
def outputsSeparated (outs : Dict) : Prop :=
  (outs.map Prod.snd).Nodup ∧
    ∀ p ∈ outs.map Prod.snd, ∀ q ∈ outs.map Prod.snd, p ++ ".tmp" ≠ q

/-! ## Helper lemmas -/

theorem lookupD_setD (d : Dict) (k v q : String) :
    lookupD (setD d k v) q = if k = q then some v else lookupD d q := by
  induction d with
  | nil => simp [setD, lookupD]
  | cons e rest ih =>
    obtain ⟨k1, v1⟩ := e
    by_cases h1 : k1 = k
    · subst h1
      by_cases h2 : k1 = q <;> simp [setD, lookupD, h2]
    · by_cases h2 : k1 = q
      · subst h2
        have : ¬ k = k1 := fun h => h1 h.symm
        simp [setD, lookupD, h1, this]
      · simp [setD, lookupD, h1, h2, ih]

theorem hasFile_write (fs : FS) (p c q : String) :
    (fs.write p c).hasFile q = (if p = q then true else fs.hasFile q) := by
  unfold FS.write FS.hasFile
  simp only [lookupD_setD]
  by_cases h : p = q <;> simp [h]

theorem lookupD_filter_ne (l : List (String × String)) (y q : String) :
    lookupD (l.filter (fun e => !(e.1 = y))) q = if q = y then none else lookupD l q := by
  induction l with
  | nil => simp [lookupD]
  | cons e rest ih =>
    obtain ⟨k, v⟩ := e
    by_cases hk : k = y
    · subst hk
      by_cases hq : q = k
      · subst hq
        simp [List.filter, lookupD, ih]
      · have hkq : ¬ k = q := fun h => hq h.symm
        simp [List.filter, lookupD, ih, hq, hkq]
    · by_cases hq : k = q
      · have hqy : ¬ q = y := fun h => hk (hq.trans h)
        simp [List.filter, hk, lookupD, hq, hqy]
      · simp [List.filter, hk, lookupD, hq, ih]

theorem hasFile_removeFile (fs : FS) (y q : String) :
    (fs.removeFile y).hasFile q = (if q = y then false else fs.hasFile q) := by
  unfold FS.removeFile FS.hasFile
  simp only [lookupD_filter_ne]
  by_cases h : q = y <;> simp [h]

theorem ne_append_tmp_self (p : String) : p ≠ p ++ ".tmp" := by
  intro h
  have hd := congrArg String.data h
  rw [String.data_append] at hd
  have hlen := congrArg List.length hd
  rw [List.length_append] at hlen
  simp at hlen

theorem append_tmp_ne_of_ne (p q : String) (h : p ≠ q) : p ++ ".tmp" ≠ q ++ ".tmp" := by
  intro he
  apply h
  have hd := congrArg String.data he
  rw [String.data_append, String.data_append] at hd
  exact String.ext (List.append_cancel_right hd)

theorem auJson_ne_tmp (a b : String) : a ++ ".au.json" ≠ b ++ ".tmp" := by
  intro h
  have hd := congrArg (fun s : String => s.data.reverse.headI) h
  simp only [String.data_append, List.reverse_append] at hd
  have h1 : ((".au.json" : String).data.reverse ++ a.data.reverse).headI = 'n' := rfl
  have h2 : ((".tmp" : String).data.reverse ++ b.data.reverse).headI = 'p' := rfl
  rw [h1, h2] at hd
  exact absurd hd (by decide)

theorem pyDropLast4_append_tmp (p : String) : pyDropLast4 (p ++ ".tmp") = p := by
  unfold pyDropLast4
  have hd : (p ++ ".tmp").data = p.data ++ (".tmp" : String).data := String.data_append p ".tmp"
  rw [hd]
  have h4 : (".tmp" : String).data.length = 4 := rfl
  rw [List.length_append, h4]
  have : p.data.length + 4 - 4 = p.data.length := by omega
  rw [this, List.take_left]

theorem tmp_roundtrip (outs : Dict) :
    (outs.map (fun nv => (nv.1, nv.2 ++ ".tmp"))).map (fun nv => (nv.1, pyDropLast4 nv.2)) = outs := by
  induction outs with
  | nil => rfl
  | cons nv rest ih =>
    obtain ⟨n, p⟩ := nv
    simp [ih, pyDropLast4_append_tmp]

theorem ensure_files (outs : Dict) (fs : FS) :
    (ensureOutputFoldersExist outs fs).files = fs.files := by
  induction outs generalizing fs with
  | nil => rfl
  | cons nv rest ih =>
    unfold ensureOutputFoldersExist
    by_cases h : fs.existsPath (parentDir nv.2) <;> simp [h, ih]

theorem ensure_hasFile (outs : Dict) (fs : FS) (p : String) :
    (ensureOutputFoldersExist outs fs).hasFile p = fs.hasFile p := by
  unfold FS.hasFile
  rw [ensure_files]

theorem writeAuditGo_preserves_present (content : String) (paths : List String)
    (fs : FS) (x : String) (hx : fs.hasFile x = true) :
    (writeAuditFilesGo content paths fs).hasFile x = true := by
  induction paths generalizing fs with
  | nil => exact hx
  | cons q rest ih =>
    unfold writeAuditFilesGo
    apply ih
    rw [hasFile_write]
    by_cases h : q ++ ".au.json" = x <;> simp [h, hx]

theorem writeAuditGo_has_record (content : String) (paths : List String)
    (fs : FS) (p : String) (hp : p ∈ paths) :
    (writeAuditFilesGo content paths fs).hasFile (p ++ ".au.json") = true := by
  induction paths generalizing fs with
  | nil => cases hp
  | cons q rest ih =>
    rcases List.mem_cons.mp hp with h | h
    · subst h
      unfold writeAuditFilesGo
      apply writeAuditGo_preserves_present
      rw [hasFile_write]
      simp
    · unfold writeAuditFilesGo
      exact ih _ h

theorem writeAuditGo_tmp_absent (content : String) (paths : List String)
    (fs : FS) (x : String) (hx : fs.hasFile (x ++ ".tmp") = false) :
    (writeAuditFilesGo content paths fs).hasFile (x ++ ".tmp") = false := by
  induction paths generalizing fs with
  | nil => exact hx
  | cons q rest ih =>
    unfold writeAuditFilesGo
    apply ih
    rw [hasFile_write]
    simp [auJson_ne_tmp q x, hx]

theorem moveTemp_preserves_present (outs : Dict) (fs fs2 : FS) (x : String)
    (hmv : moveTempfilesToFinalPath outs fs = (fs2, none))
    (hx : fs.hasFile x = true)
    (hno : ∀ nv ∈ outs, x ≠ nv.2 ++ ".tmp") :
    fs2.hasFile x = true := by
  induction outs generalizing fs with
  | nil =>
    unfold moveTempfilesToFinalPath at hmv
    cases hmv
    exact hx
  | cons nv rest ih =>
    obtain ⟨n, p⟩ := nv
    unfold moveTempfilesToFinalPath at hmv
    cases hmov : FS.move fs (p ++ ".tmp") p with
    | none => rw [hmov] at hmv; cases hmv
    | some fs1 =>
      rw [hmov] at hmv
      apply ih fs1 hmv
      · unfold FS.move at hmov
        cases hlk : lookupD fs.files (p ++ ".tmp") with
        | none => rw [hlk] at hmov; cases hmov
        | some c =>
          rw [hlk] at hmov
          cases hmov
          rw [hasFile_write, hasFile_removeFile]
          have hxp : x ≠ p ++ ".tmp" := hno (n, p) (List.mem_cons_self _ _)
          by_cases h : p = x <;> simp [h, hxp, hx]
      · intro mv hmv2
        exact hno mv (List.mem_cons_of_mem _ hmv2)

theorem moveTemp_preserves_absent (outs : Dict) (fs fs2 : FS) (x : String)
    (hmv : moveTempfilesToFinalPath outs fs = (fs2, none))
    (hx : fs.hasFile x = false)
    (hno : ∀ nv ∈ outs, x ≠ nv.2) :
    fs2.hasFile x = false := by
  induction outs generalizing fs with
  | nil =>
    unfold moveTempfilesToFinalPath at hmv
    cases hmv
    exact hx
  | cons nv rest ih =>
    obtain ⟨n, p⟩ := nv
    unfold moveTempfilesToFinalPath at hmv
    cases hmov : FS.move fs (p ++ ".tmp") p with
    | none => rw [hmov] at hmv; cases hmv
    | some fs1 =>
      rw [hmov] at hmv
      apply ih fs1 hmv
      · unfold FS.move at hmov
        cases hlk : lookupD fs.files (p ++ ".tmp") with
        | none => rw [hlk] at hmov; cases hmov
        | some c =>
          rw [hlk] at hmov
          cases hmov
          rw [hasFile_write, hasFile_removeFile]
          have hxp : ¬ p = x := fun h => hno (n, p) (List.mem_cons_self _ _) h.symm
          by_cases h : x = p ++ ".tmp" <;> simp [h, hxp, hx, ne_append_tmp_self p]
      · intro mv hmv2
        exact hno mv (List.mem_cons_of_mem _ hmv2)

theorem moveTemp_final (outs : Dict) (fs fs2 : FS)
    (hmv : moveTempfilesToFinalPath outs fs = (fs2, none))
    (hsep : outputsSeparated outs) :
    ∀ nv ∈ outs, fs2.hasFile nv.2 = true ∧ fs2.hasFile (nv.2 ++ ".tmp") = false := by
  induction outs generalizing fs with
  | nil => intro nv hnv; cases hnv
  | cons hd rest ih =>
    obtain ⟨n, p⟩ := hd
    unfold moveTempfilesToFinalPath at hmv
    cases hmov : FS.move fs (p ++ ".tmp") p with
    | none => rw [hmov] at hmv; cases hmv
    | some fs1 =>
      rw [hmov] at hmv
      have hsep2 : outputsSeparated rest := by
        refine ⟨(List.nodup_cons.mp hsep.1).2, ?_⟩
        intro a ha b hb
        exact hsep.2 a (List.mem_cons_of_mem _ ha) b (List.mem_cons_of_mem _ hb)
      have hmemp : p ∈ (((n, p) :: rest).map Prod.snd) := by simp
      intro nv hnv
      rcases List.mem_cons.mp hnv with h | h
      · subst h
        have hfs1 : fs1.hasFile p = true ∧ fs1.hasFile (p ++ ".tmp") = false := by
          unfold FS.move at hmov
          cases hlk : lookupD fs.files (p ++ ".tmp") with
          | none => rw [hlk] at hmov; cases hmov
          | some c =>
            rw [hlk] at hmov
            cases hmov
            constructor
            · rw [hasFile_write]; simp
            · rw [hasFile_write, hasFile_removeFile]
              simp [ne_append_tmp_self p]
        constructor
        · apply moveTemp_preserves_present rest fs1 fs2 p hmv hfs1.1
          intro mv hmem
          intro hx
          exact hsep.2 mv.2 (List.mem_cons_of_mem _ (List.mem_map_of_mem _ hmem)) p hmemp hx.symm
        · apply moveTemp_preserves_absent rest fs1 fs2 (p ++ ".tmp") hmv hfs1.2
          intro mv hmem
          intro hx
          exact hsep.2 p hmemp mv.2 (List.mem_cons_of_mem _ (List.mem_map_of_mem _ hmem)) hx
      · exact ih fs1 hmv hsep2 nv h

theorem outputsExist_skip (outs : Dict) (fs : FS)
    (h1 : outs.any (fun nv => fs.existsPath nv.2) = true)
    (h2 : ∀ msg, outputsExist outs fs ≠ Except.error msg) :
    outputsExist outs fs = Except.ok true := by
  induction outs with
  | nil => simp at h1
  | cons nv rest ih =>
    obtain ⟨n, p⟩ := nv
    by_cases htmp : fs.existsPath (p ++ ".tmp") = true
    · exact absurd (by simp [outputsExist, htmp]) (h2 ("Existing temp files found: " ++ p ++ ".tmp"))
    · rw [Bool.not_eq_true] at htmp
      by_cases hp : fs.existsPath p = true
      · simp [outputsExist, htmp, hp]
      · rw [Bool.not_eq_true] at hp
        have h1r : rest.any (fun nv => fs.existsPath nv.2) = true := by
          rw [List.any_cons] at h1
          simpa [hp] using h1
        have h2r : ∀ msg, outputsExist rest fs ≠ Except.error msg := by
          intro msg hmsg
          exact h2 msg (by simp [outputsExist, htmp, hp, hmsg])
        simp only [outputsExist, htmp, hp]
        simp [ih h1r h2r]

theorem outputsExist_stale (pre rest : Dict) (n p : String) (fs : FS)
    (htmp : fs.existsPath (p ++ ".tmp") = true)
    (hpre : ∀ nv ∈ pre, fs.existsPath (nv.2 ++ ".tmp") = false ∧ fs.existsPath nv.2 = false) :
    outputsExist (pre ++ (n, p) :: rest) fs =
      Except.error ("Existing temp files found: " ++ p ++ ".tmp") := by
  induction pre with
  | nil => simp [outputsExist, htmp]
  | cons nv pre2 ih =>
    obtain ⟨m, q⟩ := nv
    have hq := hpre (m, q) (List.mem_cons_self _ _)
    simp only [List.cons_append, outputsExist, hq.1, hq.2]
    simp only [Bool.false_eq_true, if_false]
    exact ih (fun mv hm => hpre mv (List.mem_cons_of_mem _ hm))

theorem string_eq_empty_iff_data (s : String) : s = "" ↔ s.data = [] := by
  cases s with
  | mk l =>
    constructor
    · intro h
      exact congrArg String.data h
    · intro h
      exact String.ext h

/-! ## Verification of the claims -/

/-- C6 counterexample: the `%` modifier with an empty suffix does not
leave the value unchanged — `path[0:-0]` is `path[0:0] = ""`, so the
whole value is erased, both at the modifier level and end-to-end through
the input pass. -/
theorem percent_empty_suffix_clears_value :
    applyInputMod "abc" "%" = Except.ok "" ∧
      (Except.ok "" : Except String String) ≠ Except.ok "abc" ∧
      inputPass [("x", "abc")] "[i:x|%]" = Except.ok "" :=
  ⟨rfl, fun h => by simp at h, rfl⟩

/-- C6 (amended): applying the `%<suffix>` modifier to a resolved value
yields the value with its last `len(suffix)` characters removed (all of
them when the suffix is longer than the value) for every nonempty
suffix; the empty suffix instead yields the empty string, because the
implementation slice `path[0:-0]` is empty. -/
theorem percent_modifier_strips_suffix_length (v suffix : String) :
    applyInputMod v ("%" ++ suffix) =
      Except.ok (if suffix = "" then ""
                 else String.mk (v.data.take (v.data.length - suffix.data.length))) := by
  have hd : ("%" ++ suffix).data = '%' :: suffix.data := by
    rw [String.data_append]
    rfl
  unfold applyInputMod
  rw [hd]
  simp only []
  unfold pySliceToNeg
  by_cases hs : suffix = ""
  · have : suffix.data = [] := (string_eq_empty_iff_data suffix).mp hs
    simp [this, hs]
  · have hne : suffix.data ≠ [] := fun h => hs ((string_eq_empty_iff_data suffix).mpr h)
    have hdl : suffix.length = suffix.data.length := rfl
    have hlen : suffix.length ≠ 0 := by
      rw [hdl]
      exact fun h => hne (List.length_eq_zero.mp h)
    simp [hs, hlen]

/-- C5: resolution runs the input pass, then the parameter pass, then
the output pass; the nested input reference inside the three-part output
placeholder of `"wget -O [o:fasta:[i:gz]]"` is substituted before the
output pass binds the port, so with input `gz = "data/chrmt.fa.gz"` the
final string is `"wget -O data/chrmt.fa.gz"`, the staged string is
`"wget -O data/chrmt.fa.gz.tmp"`, and `outputs["fasta"]` is bound —
both at resolver level and through `ShellTask.__init__`. -/
theorem nested_output_placeholder_resolution :
    resolvePlaceholders [("gz", "data/chrmt.fa.gz")] [] [] "wget -O [o:fasta:[i:gz]]" =
      Except.ok ("wget -O data/chrmt.fa.gz", "wget -O data/chrmt.fa.gz.tmp",
        [("fasta", "data/chrmt.fa.gz")]) ∧
    mkShellTask "wget -O [o:fasta:[i:gz]]" [("gz", "data/chrmt.fa.gz")] [] [] none =
      Except.ok { inputs := [("gz", "data/chrmt.fa.gz")],
                  outputs := [("fasta", "data/chrmt.fa.gz")], params := [],
                  tempfiles := true,
                  command := "wget -O data/chrmt.fa.gz",
                  temp_command := "wget -O data/chrmt.fa.gz.tmp" } :=
  ⟨rfl, rfl⟩

/-- C4: when some declared output's final path exists and the
stale-staged-path check does not fire, `execute` returns immediately:
the filesystem is returned unchanged (so every file's content, and every
other declared output, is untouched) and the result does not depend on
the runner or the function — the underlying command/function is never
invoked. -/
theorem existing_final_output_skips_task
    (t : ShellTask) (u : FuncTask) (fs : FS)
    (ht : t.outputs.any (fun nv => fs.existsPath nv.2) = true)
    (htne : ∀ msg, outputsExist t.outputs fs ≠ Except.error msg)
    (hu : u.outputs.any (fun nv => fs.existsPath nv.2) = true)
    (hune : ∀ msg, outputsExist u.outputs fs ≠ Except.error msg) :
    (∀ runner : Runner, t.execute runner fs = ExecResult.ok t fs) ∧
      u.execute fs = ExecResult.ok u fs := by
  have h1 := outputsExist_skip t.outputs fs ht htne
  have h2 := outputsExist_skip u.outputs fs hu hune
  constructor
  · intro runner
    unfold ShellTask.execute
    rw [h1]
  · unfold FuncTask.execute
    rw [h2]

/-- C4 witness: a concrete task whose single output already exists is
skipped with the filesystem unchanged. -/
theorem existing_final_output_skips_task_witness :
    (∀ runner : Runner, tW4.execute runner fsW4 = ExecResult.ok tW4 fsW4) ∧
      uW4.execute fsW4 = ExecResult.ok uW4 fsW4 :=
  existing_final_output_skips_task tW4 uW4 fsW4 (by decide)
    (fun msg h => by
      rw [show outputsExist tW4.outputs fsW4 = Except.ok true from rfl] at h
      cases h)
    (by decide)
    (fun msg h => by
      rw [show outputsExist uW4.outputs fsW4 = Except.ok true from rfl] at h
      cases h)

/-- C3 counterexample: outputs are checked in insertion order and an
existing final path short-circuits to the skip path before later staged
paths are examined — here the first output's final path `fa` exists and
the second output's staged path `fb.tmp` is stale, yet `execute`
returns normally instead of failing. -/
theorem stale_temp_after_existing_final_skips :
    tCx3.execute fsCx3 = ExecResult.ok tCx3 fsCx3 ∧
      ∀ (t : FuncTask) (fs : FS) (msg : String),
        tCx3.execute fsCx3 ≠ ExecResult.err t fs msg := by
  constructor
  · rfl
  · intro t fs msg h
    rw [show tCx3.execute fsCx3 = ExecResult.ok tCx3 fsCx3 from rfl] at h
    cases h

/-- C3 (amended): `execute` raises the stale-partial-output failure for
a staged path `p ++ ".tmp"` exactly when no earlier-declared output's
staged or final path exists — an earlier output whose final path exists
short-circuits to the skip path instead.  Outputs declared after the
stale one are irrelevant. -/
theorem stale_temp_first_hit_raises
    (t : FuncTask) (s : ShellTask) (fs : FS) (pre rest : Dict) (n p : String)
    (ht : t.outputs = pre ++ (n, p) :: rest)
    (hs : s.outputs = pre ++ (n, p) :: rest)
    (htmp : fs.existsPath (p ++ ".tmp") = true)
    (hpre : ∀ nv ∈ pre, fs.existsPath (nv.2 ++ ".tmp") = false ∧ fs.existsPath nv.2 = false) :
    t.execute fs = ExecResult.err t fs ("Existing temp files found: " ++ p ++ ".tmp") ∧
      ∀ runner : Runner,
        s.execute runner fs = ExecResult.err s fs ("Existing temp files found: " ++ p ++ ".tmp") := by
  have he : outputsExist (pre ++ (n, p) :: rest) fs =
      Except.error ("Existing temp files found: " ++ p ++ ".tmp") :=
    outputsExist_stale pre rest n p fs htmp hpre
  constructor
  · unfold FuncTask.execute
    rw [ht, he]
  · intro runner
    unfold ShellTask.execute
    rw [hs, he]

/-- C3 witness: a stale staged path on the first declared output makes
`execute` fail for both task kinds. -/
theorem stale_temp_first_hit_raises_witness :
    uW4.execute { files := [("w4out.tmp", "z")], dirs := [] } =
      ExecResult.err uW4 { files := [("w4out.tmp", "z")], dirs := [] }
        ("Existing temp files found: " ++ "w4out" ++ ".tmp") ∧
      ∀ runner : Runner,
        tW4.execute runner { files := [("w4out.tmp", "z")], dirs := [] } =
          ExecResult.err tW4 { files := [("w4out.tmp", "z")], dirs := [] }
            ("Existing temp files found: " ++ "w4out" ++ ".tmp") :=
  stale_temp_first_hit_raises uW4 tW4 { files := [("w4out.tmp", "z")], dirs := [] }
    [] [] "o" "w4out" rfl rfl (by decide) (fun nv h => by cases h)

/-- C2 counterexample: `execute` can return successfully via the skip
path while a declared output is still missing — `tCx2` declares outputs
`a` and `b`, only `a` exists, and the skipped run leaves `b` absent. -/
theorem skip_leaves_missing_output :
    tCx2.execute runnerNoop fsCx2 = ExecResult.ok tCx2 fsCx2 ∧
      fsCx2.hasFile "b" = false :=
  ⟨rfl, rfl⟩

/-- C2 (amended): for a task with staging enabled whose declared output
paths are pairwise distinct and none of which is another output's staged
name, if `execute` runs the underlying work to completion (does not skip
and returns successfully), then every declared output exists as a final
file and no staged `.tmp` path remains for the task's outputs. -/
theorem staged_success_outputs_final :
    (∀ (t : ShellTask) (runner : Runner) (fs fs2 : FS),
       t.tempfiles = true →
       outputsExist t.outputs fs = Except.ok false →
       outputsSeparated t.outputs →
       t.execute runner fs = ExecResult.ok t fs2 →
       ∀ nv ∈ t.outputs, fs2.hasFile nv.2 = true ∧ fs2.hasFile (nv.2 ++ ".tmp") = false) ∧
    (∀ (u u2 : FuncTask) (fs fs2 : FS),
       u.tempfiles = true →
       outputsExist u.outputs fs = Except.ok false →
       outputsSeparated u.outputs →
       u.execute fs = ExecResult.ok u2 fs2 →
       ∀ nv ∈ u.outputs, fs2.hasFile nv.2 = true ∧ fs2.hasFile (nv.2 ++ ".tmp") = false) := by
  constructor
  · intro t runner fs fs2 htf hOE hsep hex
    unfold ShellTask.execute at hex
    rw [hOE] at hex
    simp only [htf, if_true] at hex
    rcases hmv : moveTempfilesToFinalPath t.outputs
        (execShellCommand true t.command t.temp_command runner
          (ensureOutputFoldersExist t.outputs fs)).1 with ⟨fs3, merr⟩
    rw [hmv] at hex
    cases merr with
    | some e => cases hex
    | none =>
      have hfs3 := moveTemp_final t.outputs _ fs3 hmv hsep
      have hfs2 : fs2 = writeAuditFiles t.command (t.inputs.map Prod.snd)
          (t.outputs.map Prod.snd) fs3 := by
        cases hex
        rfl
      intro nv hnv
      rw [hfs2]
      unfold writeAuditFiles
      constructor
      · exact writeAuditGo_preserves_present _ _ fs3 nv.2 (hfs3 nv hnv).1
      · exact writeAuditGo_tmp_absent _ _ fs3 nv.2 (hfs3 nv hnv).2
  · intro u u2 fs fs2 htf hOE hsep hex
    unfold FuncTask.execute at hex
    rw [hOE] at hex
    simp only [htf, if_true] at hex
    rcases hF : u.func
        { inputs := u.inputs, outputs := u.outputs.map (fun nv => (nv.1, nv.2 ++ ".tmp")),
          params := u.params } (ensureOutputFoldersExist u.outputs fs) with ⟨fsa, ferr⟩
    rw [hF] at hex
    cases ferr with
    | some e => cases hex
    | none =>
      simp only [tmp_roundtrip] at hex
      rcases hmv : moveTempfilesToFinalPath u.outputs fsa with ⟨fs3, merr⟩
      rw [hmv] at hex
      cases merr with
      | some e => cases hex
      | none =>
        have hfs3 := moveTemp_final u.outputs _ fs3 hmv hsep
        have hfs2 : fs2 = fs3 := by
          cases hex
          rfl
        intro nv hnv
        rw [hfs2]
        exact hfs3 nv hnv

/-- C2 witness: a concrete staged run that completes leaves the final
output present and no staged path behind. -/
theorem staged_success_outputs_final_witness :
    fsW2end.hasFile "w2o" = true ∧ fsW2end.hasFile ("w2o" ++ ".tmp") = false :=
  staged_success_outputs_final.1 tW2 runnerW2 fs0 fsW2end rfl rfl
    (by unfold outputsSeparated; decide) rfl ("o", "w2o") (by decide)

/-- C7 counterexample: a `FuncTask` whose `execute` fully completes
(produces and promotes its output) persists no audit record — only
`ShellTask.execute` writes audit files. -/
theorem functask_completion_writes_no_audit :
    tCx7.execute fs0 = ExecResult.ok tCx7 { files := [("o", "x")], dirs := [] } ∧
      FS.hasFile { files := [("o", "x")], dirs := [] } ("o" ++ ".au.json") = false :=
  ⟨rfl, rfl⟩

/-- C7 (amended): for every `ShellTask` whose `execute` runs the
underlying work to completion (does not skip and returns successfully),
one audit record has been written per declared output path, at
`<output-path>.au.json`. -/
theorem shelltask_completion_audits_outputs (t : ShellTask) (runner : Runner) (fs fs2 : FS)
    (hOE : outputsExist t.outputs fs = Except.ok false)
    (hex : t.execute runner fs = ExecResult.ok t fs2) :
    ∀ nv ∈ t.outputs, fs2.hasFile (nv.2 ++ ".au.json") = true := by
  unfold ShellTask.execute at hex
  rw [hOE] at hex
  cases htf : t.tempfiles with
  | true =>
    simp only [htf, if_true] at hex
    rcases hmv : moveTempfilesToFinalPath t.outputs
        (execShellCommand true t.command t.temp_command runner
          (ensureOutputFoldersExist t.outputs fs)).1 with ⟨fs3, merr⟩
    rw [hmv] at hex
    cases merr with
    | some e => cases hex
    | none =>
      have hfs2 : fs2 = writeAuditFiles t.command (t.inputs.map Prod.snd)
          (t.outputs.map Prod.snd) fs3 := by
        cases hex
        rfl
      intro nv hnv
      rw [hfs2]
      unfold writeAuditFiles
      exact writeAuditGo_has_record _ _ fs3 nv.2 (List.mem_map_of_mem _ hnv)
  | false =>
    simp only [htf, Bool.false_eq_true, if_false] at hex
    have hfs2 : fs2 = writeAuditFiles t.command (t.inputs.map Prod.snd)
        (t.outputs.map Prod.snd)
        (execShellCommand false t.command t.temp_command runner
          (ensureOutputFoldersExist t.outputs fs)).1 := by
      cases hex
      rfl
    intro nv hnv
    rw [hfs2]
    unfold writeAuditFiles
    exact writeAuditGo_has_record _ _ _ nv.2 (List.mem_map_of_mem _ hnv)

/-- C7 witness: a concrete completed `ShellTask` run has its audit
record on disk. -/
theorem shelltask_completion_audits_outputs_witness :
    fsW7end.hasFile ("w7o" ++ ".au.json") = true :=
  shelltask_completion_audits_outputs tW7 runnerW7 fs0 fsW7end rfl rfl
    ("o", "w7o") (by decide)

/-- C8: the module-level helpers do not merely construct a task — each
constructs it and invokes `execute` exactly once before returning, so
the helper's observable result is exactly one `execute` applied to the
freshly constructed task (side effects included). -/
theorem helpers_construct_and_execute :
    (∀ (command : String) (inputs outputs params : Dict) (opt : Option Bool)
       (runner : Runner) (fs : FS) (t : ShellTask),
       mkShellTask command inputs outputs params opt = Except.ok t →
       shell command inputs outputs params opt runner fs = Except.ok (t.execute runner fs)) ∧
    (∀ (f : TaskFunc) (inputs outputs params : Dict) (opt : Option Bool)
       (fs : FS) (u : FuncTask),
       mkFuncTask f inputs outputs params opt = Except.ok u →
       func f inputs outputs params opt fs = Except.ok (u.execute fs)) := by
  constructor
  · intro command inputs outputs params opt runner fs t hmk
    unfold shell
    rw [hmk]
  · intro f inputs outputs params opt fs u hmk
    unfold func
    rw [hmk]

/-- C8 witness: concrete helper calls equal one construct-then-execute. -/
theorem helpers_construct_and_execute_witness :
    shell "echo hej" [] [] [] none runnerNoop fs0 =
      Except.ok (tW8.execute runnerNoop fs0) ∧
    func funcNoop [] [] [] none fs0 = Except.ok (uW8.execute fs0) :=
  ⟨helpers_construct_and_execute.1 "echo hej" [] [] [] none runnerNoop fs0 tW8 rfl,
   helpers_construct_and_execute.2 funcNoop [] [] [] none fs0 uW8 rfl⟩

/-- C9: with staging enabled, an exception from the caller-supplied
function propagates out of `execute` before any promotion, and the
task's outputs map is left holding the staging-suffixed paths — the
task's state is changed on error. -/
theorem functask_error_keeps_staged_outputs (t : FuncTask) (fs fsa : FS) (e : String)
    (htf : t.tempfiles = true)
    (hOE : outputsExist t.outputs fs = Except.ok false)
    (hF : t.func
        { inputs := t.inputs, outputs := t.outputs.map (fun nv => (nv.1, nv.2 ++ ".tmp")),
          params := t.params } (ensureOutputFoldersExist t.outputs fs) = (fsa, some e)) :
    t.execute fs =
      ExecResult.err { t with outputs := t.outputs.map (fun nv => (nv.1, nv.2 ++ ".tmp")) }
        fsa e := by
  unfold FuncTask.execute
  rw [hOE]
  simp only [htf, if_true]
  rw [hF]

/-- C9 witness: a concrete raising function leaves the task holding the
staged output path, with the exception propagated and nothing promoted. -/
theorem functask_error_keeps_staged_outputs_witness :
    tW9.execute fs0 =
      ExecResult.err { tW9 with outputs := [("out", "w9o" ++ ".tmp")] } fs0
        "RuntimeError: boom" :=
  functask_error_keeps_staged_outputs tW9 fs0 fs0 "RuntimeError: boom" rfl rfl rfl

/-- C1 evaluation at the failing input: `_execute_shell_command` catches
its own non-zero-exit exception (printing it and returning the failure
tuple), and `execute` ignores the returned code — so a command that
writes a partial staged file and exits 1 still has that partial file
promoted to its final path and an audit record written, instead of the
lifecycle aborting. -/
theorem shelltask_nonzero_exit_promotes_and_audits :
    tCx1.execute runnerCx1 fs0 = ExecResult.ok tCx1 fsCx1end ∧
      fsCx1end.hasFile "out" = true ∧
      fsCx1end.hasFile ("out" ++ ".au.json") = true ∧
      (runnerCx1 tCx1.temp_command fs0).2.returncode = 1 :=
  ⟨rfl, rfl, rfl, rfl⟩

theorem takeWhile_append_stop (p : Char → Bool) (xs : List Char) (y : Char) (ys : List Char)
    (hxs : ∀ c ∈ xs, p c = true) (hy : p y = false) :
    (xs ++ y :: ys).takeWhile p = xs := by
  induction xs with
  | nil => simp [List.takeWhile_cons, hy]
  | cons a xs ih =>
    have ha : p a = true := hxs a (List.mem_cons_self _ _)
    simp only [List.cons_append, List.takeWhile_cons, ha, if_true]
    rw [ih (fun c hc => hxs c (List.mem_cons_of_mem _ hc))]

theorem dropWhile_append_stop (p : Char → Bool) (xs : List Char) (y : Char) (ys : List Char)
    (hxs : ∀ c ∈ xs, p c = true) (hy : p y = false) :
    (xs ++ y :: ys).dropWhile p = y :: ys := by
  induction xs with
  | nil => simp [List.dropWhile_cons, hy]
  | cons a xs ih =>
    have ha : p a = true := hxs a (List.mem_cons_self _ _)
    simp only [List.cons_append, List.dropWhile_cons, ha, if_true]
    exact ih (fun c hc => hxs c (List.mem_cons_of_mem _ hc))

theorem matchO_ne_bracket (c : Char) (rest : List Char) (hc : c ≠ '[') :
    matchO (c :: rest) = none := by
  unfold matchO
  have h3 : ¬ (c :: rest).take 3 = ['[', 'o', ':'] := by
    rw [List.take_succ_cons]
    intro he
    injection he with h1 _
    exact hc h1
  rw [if_neg h3]

theorem matchO_colon_in_path_fails (name p1 rest2 : List Char)
    (hname : ∀ c ∈ name, nameCharO c = true)
    (hp1 : ∀ c ∈ p1, nameCharO c = true) :
    matchO ('[' :: 'o' :: ':' :: (name ++ ':' :: (p1 ++ ':' :: rest2))) = none := by
  have h3 : ('[' :: 'o' :: ':' :: (name ++ ':' :: (p1 ++ ':' :: rest2))).take 3 =
      ['[', 'o', ':'] := rfl
  have hdrop3 : ('[' :: 'o' :: ':' :: (name ++ ':' :: (p1 ++ ':' :: rest2))).drop 3 =
      name ++ ':' :: (p1 ++ ':' :: rest2) := rfl
  have hcolon : nameCharO ':' = false := rfl
  have hdw : (name ++ ':' :: (p1 ++ ':' :: rest2)).dropWhile nameCharO =
      ':' :: (p1 ++ ':' :: rest2) :=
    dropWhile_append_stop nameCharO name ':' _ hname hcolon
  have htw1 : (p1 ++ ':' :: rest2).takeWhile nameCharO = p1 :=
    takeWhile_append_stop nameCharO p1 ':' _ hp1 hcolon
  have hdw1 : (p1 ++ ':' :: rest2).dropWhile nameCharO = ':' :: rest2 :=
    dropWhile_append_stop nameCharO p1 ':' _ hp1 hcolon
  by_cases hp : p1.isEmpty
  · simp [matchO, h3, hdrop3, hdw, htw1, hdw1, hp]
  · simp [matchO, h3, hdrop3, hdw, htw1, hdw1, hp]

theorem findOAux_no_bracket (fuel : Nat) (l : List Char) (h : ∀ c ∈ l, c ≠ '[') :
    findOAux fuel l = [] := by
  induction fuel generalizing l with
  | zero => rfl
  | succ fuel ih =>
    cases l with
    | nil => rfl
    | cons c rest =>
      have hm := matchO_ne_bracket c rest (h c (List.mem_cons_self _ _))
      simp only [findOAux, hm]
      exact ih rest (fun d hd => h d (List.mem_cons_of_mem _ hd))

theorem findOAux_skip (pre : List Char) (fuel : Nat) (l : List Char)
    (h : ∀ c ∈ pre, c ≠ '[') :
    findOAux (pre.length + fuel) (pre ++ l) = findOAux fuel l := by
  induction pre with
  | nil => simp
  | cons c pre ih =>
    have hm := matchO_ne_bracket c (pre ++ l) (h c (List.mem_cons_self _ _))
    have hlen : (c :: pre).length + fuel = (pre.length + fuel) + 1 := by
      simp [List.length_cons]
      omega
    rw [hlen]
    show findOAux ((pre.length + fuel) + 1) (c :: (pre ++ l)) = _
    simp only [findOAux, hm]
    exact ih (fun d hd => h d (List.mem_cons_of_mem _ hd))

theorem findallO_colon_template (pre name p1 p2 post : List Char)
    (hpre : ∀ c ∈ pre, c ≠ '[')
    (hname : ∀ c ∈ name, nameCharO c = true ∧ c ≠ '[')
    (hp1 : ∀ c ∈ p1, nameCharO c = true ∧ c ≠ '[')
    (hp2 : ∀ c ∈ p2, c ≠ ']' ∧ c ≠ '[')
    (hpost : ∀ c ∈ post, c ≠ '[') :
    findOAux (pre ++ '[' :: 'o' :: ':' :: (name ++ ':' :: (p1 ++ ':' :: (p2 ++ ']' :: post)))).length
      (pre ++ '[' :: 'o' :: ':' :: (name ++ ':' :: (p1 ++ ':' :: (p2 ++ ']' :: post)))) = [] := by
  have hlen : (pre ++ '[' :: 'o' :: ':' :: (name ++ ':' :: (p1 ++ ':' :: (p2 ++ ']' :: post)))).length =
      pre.length + (('o' :: ':' :: (name ++ ':' :: (p1 ++ ':' :: (p2 ++ ']' :: post)))).length + 1) := by
    rw [List.length_append]
    rfl
  rw [hlen]
  rw [findOAux_skip pre _ _ hpre]
  have hm : matchO ('[' :: 'o' :: ':' :: (name ++ ':' :: (p1 ++ ':' :: (p2 ++ ']' :: post)))) = none :=
    matchO_colon_in_path_fails name p1 (p2 ++ ']' :: post)
      (fun c hc => (hname c hc).1) (fun c hc => (hp1 c hc).1)
  simp only [findOAux, hm]
  apply findOAux_no_bracket
  intro c hc
  rcases List.mem_append.mp hc with h | hc
  · exact (hname c h).2
  · rcases List.mem_cons.mp hc with h | hc
    · subst h
      decide
    · rcases List.mem_append.mp hc with h | hc
      · exact (hp1 c h).2
      · rcases List.mem_cons.mp hc with h | hc
        · subst h
          decide
        · rcases List.mem_append.mp hc with h | hc
          · exact (hp2 c h).2
          · rcases List.mem_cons.mp hc with h | hc
            · subst h
              decide
            · exact hpost c hc

/-- C10: when the PATH segment of a three-part output placeholder
contains a `':'` after the input and parameter passes have run, the
out-port regex does not recognize the placeholder: the output pass
leaves the template verbatim in both the final and the staged strings,
binds nothing, and raises no error.  (The character-class hypotheses say
the segments contain no structural characters: no `'['` anywhere, no
`':'`/`']'` inside NAME and the first PATH piece, no `']'` in the rest
of the PATH.)  The second conjunct shows the motivating instance: a
nested input reference whose value `a:b` contains `':'` is substituted
by the input pass and then the output pass leaves the placeholder
unresolved. -/
theorem colon_in_output_path_left_verbatim :
    (∀ (pre name p1 p2 post : String) (outs : Dict),
       (∀ c ∈ pre.data, c ≠ '[') →
       (∀ c ∈ name.data, nameCharO c = true ∧ c ≠ '[') →
       (∀ c ∈ p1.data, nameCharO c = true ∧ c ≠ '[') →
       (∀ c ∈ p2.data, c ≠ ']' ∧ c ≠ '[') →
       (∀ c ∈ post.data, c ≠ '[') →
       outputPass outs (pre ++ "[o:" ++ name ++ ":" ++ p1 ++ ":" ++ p2 ++ "]" ++ post) =
         Except.ok (pre ++ "[o:" ++ name ++ ":" ++ p1 ++ ":" ++ p2 ++ "]" ++ post,
           pre ++ "[o:" ++ name ++ ":" ++ p1 ++ ":" ++ p2 ++ "]" ++ post, outs)) ∧
    resolvePlaceholders [("gz", "a:b")] [] [] "wget -O [o:fasta:[i:gz]]" =
      Except.ok ("wget -O [o:fasta:a:b]", "wget -O [o:fasta:a:b]", []) := by
  constructor
  · intro pre name p1 p2 post outs h1 h2 h3 h4 h5
    have hdata : (pre ++ "[o:" ++ name ++ ":" ++ p1 ++ ":" ++ p2 ++ "]" ++ post).data =
        pre.data ++ '[' :: 'o' :: ':' ::
          (name.data ++ ':' :: (p1.data ++ ':' :: (p2.data ++ ']' :: post.data))) := by
      simp [String.data_append]
    have hfind : findOAux (pre ++ "[o:" ++ name ++ ":" ++ p1 ++ ":" ++ p2 ++ "]" ++ post).data.length
        (pre ++ "[o:" ++ name ++ ":" ++ p1 ++ ":" ++ p2 ++ "]" ++ post).data = [] := by
      rw [hdata]
      exact findallO_colon_template pre.data name.data p1.data p2.data post.data h1 h2 h3 h4 h5
    unfold outputPass
    rw [hfind]
    rfl
  · rfl

/-- C10 witness: the general statement applied at `"wget -O "`,
`"fasta"`, `"a"`, `"b"`, empty tail. -/
theorem colon_in_output_path_left_verbatim_witness :
    outputPass [] ("wget -O " ++ "[o:" ++ "fasta" ++ ":" ++ "a" ++ ":" ++ "b" ++ "]" ++ "") =
      Except.ok ("wget -O " ++ "[o:" ++ "fasta" ++ ":" ++ "a" ++ ":" ++ "b" ++ "]" ++ "",
        "wget -O " ++ "[o:" ++ "fasta" ++ ":" ++ "a" ++ ":" ++ "b" ++ "]" ++ "", []) :=
  colon_in_output_path_left_verbatim.1 "wget -O " "fasta" "a" "b" "" []
    (by decide) (by decide) (by decide) (by decide) (by decide)
